import Mathlib

/-!
Verification of the queuectl job-queue core against its specification.

The Go sources are embedded shallowly:

* `Job` mirrors `internal/job/job.go`'s `Job` struct.  Go `time.Time`
  values are modelled as `Int` nanoseconds since the epoch; the zero
  time is `0`.  Go `int` is modelled as `Int`.  `*time.Time` becomes
  `Option Int`, and Go strings stay `String` (the empty string is the
  "unset" value, as in the source).
* The state-transition methods (`MarkAsProcessing`, `MarkAsCompleted`,
  `MarkAsFailed`, `MarkAsDead`, `ResetForRetry`, `CanRetry`) are
  translated line by line; every method takes the current wall-clock
  time `now` explicitly where the source calls `time.Now()`.
* `internal/retry` (`CalculateBackoff`, `NextRetryTime`) is translated
  with `float64` idealised as `ℚ`; the Go conversion
  `time.Duration(delaySeconds)` truncates the float to an integer,
  which for the (≥ 1) delays produced here is `Int.floor`.
* `internal/storage/sqlite.go` is modelled as a table `List Row`, where
  `Row` has exactly the columns of the `jobs` table.  Timestamps are
  stored RFC3339-formatted, i.e. truncated to whole seconds; the stored
  text is modelled by its second count, so formatting is `toSec` and
  parsing back is `ofSec`.  `SaveJob`'s `ON CONFLICT` clause, `GetJob`,
  and `GetNextPendingJob`'s SELECT/UPDATE transaction are translated
  statement by statement.
* The worker settlement logic (`handleSuccess`, `handleFailure` in
  `internal/worker/worker.go`) and the enqueue path
  (`job.FromJSON` + the CLI `enqueueCmd`) are translated directly.
-/

/-! ## Job model (internal/job/job.go) -/

/-- Job states, `State` constants in job.go. -/
def StatePending : String := "pending"

def StateProcessing : String := "processing"

def StateCompleted : String := "completed"

def StateFailed : String := "failed"

def StateDead : String := "dead"

/-- The `Job` struct of job.go.  Times are `Int` nanoseconds since the
epoch (Go zero time = `0`); `NextRetryAt` is a nullable pointer. -/
structure Job where
  ID : String
  Command : String
  State : String
  Attempts : Int
  MaxRetries : Int
  CreatedAt : Int
  UpdatedAt : Int
  NextRetryAt : Option Int
  WorkerID : String
  Error : String
  Output : String
deriving Repr, DecidableEq

namespace Job

/-- `NewJob` (job.go): the generated `uuid.New().String()` is passed in
as `id`, and `time.Now().UTC()` as `now`. -/
def NewJob (id command : String) (maxRetries : Int) (now : Int) : Job :=
  { ID := id, Command := command, State := StatePending, Attempts := 0,
    MaxRetries := maxRetries, CreatedAt := now, UpdatedAt := now,
    NextRetryAt := none, WorkerID := "", Error := "", Output := "" }

/-- `Validate` (job.go): `ok` on success, `error msg` otherwise. -/
def Validate (j : Job) : Except String Unit :=
  if j.Command = "" then .error "command cannot be empty"
  else if j.MaxRetries < 0 then .error "max_retries cannot be negative"
  else .ok ()

/-- `CanRetry` (job.go): `j.Attempts < j.MaxRetries`. -/
def CanRetry (j : Job) : Bool := j.Attempts < j.MaxRetries

/-- `MarkAsProcessing` (job.go): sets state, worker id and `UpdatedAt`;
nothing else is touched. -/
def MarkAsProcessing (j : Job) (workerID : String) (now : Int) : Job :=
  { j with State := StateProcessing, WorkerID := workerID, UpdatedAt := now }

/-- `MarkAsCompleted` (job.go): sets state, output and `UpdatedAt`;
nothing else is touched. -/
def MarkAsCompleted (j : Job) (output : String) (now : Int) : Job :=
  { j with State := StateCompleted, Output := output, UpdatedAt := now }

/-- `MarkAsFailed` (job.go): sets state and error, increments
`Attempts`, stores the retry time, clears the worker id. -/
def MarkAsFailed (j : Job) (errMsg : String) (nextRetryAt : Option Int)
    (now : Int) : Job :=
  { j with
    State := StateFailed
    Error := errMsg
    Attempts := j.Attempts + 1
    NextRetryAt := nextRetryAt
    UpdatedAt := now
    WorkerID := "" }

/-- `MarkAsDead` (job.go): sets state and error and clears the worker
id; `Attempts` and `NextRetryAt` are not touched. -/
def MarkAsDead (j : Job) (errMsg : String) (now : Int) : Job :=
  { j with State := StateDead, Error := errMsg, UpdatedAt := now, WorkerID := "" }

/-- `ResetForRetry` (job.go). -/
def ResetForRetry (j : Job) (now : Int) : Job :=
  { j with
    State := StatePending
    Attempts := 0
    Error := ""
    NextRetryAt := none
    WorkerID := ""
    UpdatedAt := now }

/-- `FromJSON` (job.go), after `json.Unmarshal`: the argument `p` is the
struct as decoded from the payload (absent JSON fields are Go zero
values), `freshId` stands for the `uuid.New().String()` call and `now`
for `time.Now().UTC()`.  Each defaulting step of the source is one
`if`. -/
def FromJSON (p : Job) (freshId : String) (now : Int) : Job :=
  let p := if p.ID = "" then { p with ID := freshId } else p
  let p := if p.State = "" then { p with State := StatePending } else p
  let p := if p.MaxRetries = 0 then { p with MaxRetries := 3 } else p
  let p := if p.CreatedAt = 0 then { p with CreatedAt := now } else p
  let p := if p.UpdatedAt = 0 then { p with UpdatedAt := now } else p
  p

end Job

/-! ## Backoff (internal/retry, src/unnamed/part_002) -/

/-- `CalculateBackoff` (retry package) with `float64` idealised as `ℚ`,
up to the point where the float delay is converted to a
`time.Duration`: clamp attempts, substitute base 2 when below 1, raise,
cap at 3600. -/
def backoffDelayQ (attempts : Int) (base : ℚ) : ℚ :=
  let a := if attempts < 0 then 0 else attempts
  let b := if base < 1 then (2 : ℚ) else base
  let d := b ^ a.toNat
  if d > 3600 then 3600 else d

/-- `CalculateBackoff` returns `time.Duration(delaySeconds) * time.Second`:
the float is truncated to an integer count of units.  The delay is
always ≥ 1 so truncation toward zero is `Int.floor`.  Result in
nanoseconds. -/
def CalculateBackoff (attempts : Int) (base : ℚ) : Int :=
  ⌊backoffDelayQ attempts base⌋ * 1000000000

/-- `NextRetryTime` (retry package): `time.Now().Add(delay)`. -/
def NextRetryTime (attempts : Int) (base : ℚ) (now : Int) : Int :=
  now + CalculateBackoff attempts base

/-- Written from the spec's words, for comparison with the source's
`CalculateBackoff`: "Clamp `attempts` to ≥ 0 and `base` to ≥ 1.0
(fallback base = 2.0 if below). Return `min(base^attempts, 3600)
seconds." -/
def backoffSpec (attempts : Int) (base : ℚ) : ℚ :=
  min ((if base < 1 then (2 : ℚ) else base) ^ (max attempts 0).toNat) 3600

/-! ## Store (internal/storage/sqlite.go) -/

/-- One row of the `jobs` table.  Text timestamp columns hold RFC3339
strings, whose ordering and content are exactly their whole-second
count, so they are modelled by that count.  `worker_id`, `error`,
`output`, `next_retry_at` are nullable columns. -/
structure Row where
  id : String
  command : String
  state : String
  attempts : Int
  max_retries : Int
  created_at : Int
  updated_at : Int
  next_retry_at : Option Int
  worker_id : Option String
  error : Option String
  output : Option String
deriving Repr, DecidableEq

/-- Formatting a time with `Format(time.RFC3339)` keeps its
whole-second part. -/
def toSec (t : Int) : Int := t.ediv 1000000000

/-- Parsing an RFC3339 string back yields that second count as a time. -/
def ofSec (s : Int) : Int := s * 1000000000

/-- A round trip through the stored RFC3339 text truncates a time to
whole seconds. -/
def canonTime (t : Int) : Int := ofSec (toSec t)

/-- Point lookup of the row with a given primary key (`WHERE id = ?`). -/
def findRow (s : List Row) (i : String) : Option Row :=
  s.find? (fun r => r.id = i)

namespace Storage

/-- The bound parameters of `SaveJob`'s INSERT (sqlite.go lines
84-101): timestamps RFC3339-formatted, `next_retry_at` NULL when the
pointer is nil, the remaining strings bound as-is (never NULL). -/
def encodeRow (j : Job) : Row :=
  { id := j.ID, command := j.Command, state := j.State,
    attempts := j.Attempts, max_retries := j.MaxRetries,
    created_at := toSec j.CreatedAt, updated_at := toSec j.UpdatedAt,
    next_retry_at := j.NextRetryAt.map toSec,
    worker_id := some j.WorkerID, error := some j.Error,
    output := some j.Output }

/-- `scanJob` (sqlite.go): parse the timestamps, take NULL columns as
the Go zero values. -/
def scanJob (r : Row) : Job :=
  { ID := r.id, Command := r.command, State := r.state,
    Attempts := r.attempts, MaxRetries := r.max_retries,
    CreatedAt := ofSec r.created_at, UpdatedAt := ofSec r.updated_at,
    NextRetryAt := r.next_retry_at.map ofSec,
    WorkerID := r.worker_id.getD "", Error := r.error.getD "",
    Output := r.output.getD "" }

/-- `SaveJob` (sqlite.go): INSERT, or `ON CONFLICT(id) DO UPDATE`
overwriting every column except `id` and `created_at`. -/
def SaveJob (s : List Row) (j : Job) : List Row :=
  if s.any (fun r => r.id = j.ID) then
    s.map (fun r =>
      if r.id = j.ID then { encodeRow j with created_at := r.created_at } else r)
  else s ++ [encodeRow j]

/-- `GetJob` (sqlite.go): point lookup by primary key. -/
def GetJob (s : List Row) (id : String) : Option Job :=
  (findRow s id).map scanJob

/-- The WHERE clause of `GetNextPendingJob`'s SELECT:
`state = pending OR (state = failed AND next_retry_at <= now)`
(a NULL `next_retry_at` fails the comparison). -/
def runnable (now : Int) (r : Row) : Bool :=
  r.state = StatePending ||
    (r.state = StateFailed &&
      (match r.next_retry_at with
       | some t => decide (t ≤ toSec now)
       | none => false))

/-- The SELECT of `GetNextPendingJob`: the runnable row minimal by
`created_at` (`ORDER BY created_at ASC LIMIT 1`; among ties SQLite may
return any row, modelled as the first). -/
def selectCandidate (s : List Row) (now : Int) : Option Row :=
  (s.filter (runnable now)).argmin Row.created_at

/-- The guard of the conditional UPDATE:
`state IN (pending, failed)`. -/
def claimGuard (r : Row) : Bool :=
  r.state = StatePending || r.state = StateFailed

/-- The effect of the conditional UPDATE on one matching row. -/
def claimRow (r : Row) (workerID : String) (now : Int) : Row :=
  { r with
    state := StateProcessing
    worker_id := some workerID
    updated_at := toSec now }

/-- The conditional UPDATE of `GetNextPendingJob` (sqlite.go lines
147-160): rewrite every row matching `id = ? AND state IN
(pending,failed)` and report the number of affected rows. -/
def claimUpdate (s : List Row) (id workerID : String) (now : Int) :
    List Row × Nat :=
  (s.map (fun r =>
      if r.id = id && claimGuard r then claimRow r workerID now else r),
   (s.filter (fun r => r.id = id && claimGuard r)).length)

/-- `GetNextPendingJob` (sqlite.go): SELECT the candidate, run the
conditional UPDATE; zero rows affected means a lost race and returns
no job with the transaction rolled back (no visible write either way);
otherwise commit and return the scanned candidate with `State` and
`WorkerID` overwritten in memory (the source updates only those two
fields of the returned struct). -/
def GetNextPendingJob (s : List Row) (workerID : String) (now : Int) :
    Option Job × List Row :=
  match selectCandidate s now with
  | none => (none, s)
  | some c =>
    let u := claimUpdate s c.id workerID now
    if u.2 = 0 then (none, s)
    else (some { scanJob c with State := StateProcessing, WorkerID := workerID },
          u.1)

end Storage

/-! ## Worker settlement (internal/worker/worker.go) -/

/-- The configuration record (internal/config). -/
structure Config where
  MaxRetries : Int
  BackoffBase : ℚ
  DBPath : String
  WorkerCount : Int
deriving Repr, DecidableEq

namespace Worker

/-- `handleSuccess` (worker.go): mark completed with the captured
output. -/
def handleSuccess (j : Job) (output : String) (now : Int) : Job :=
  j.MarkAsCompleted output now

/-- `handleFailure` (worker.go): when `CanRetry`, compute the next
retry time from the pre-increment `Attempts` and mark failed; otherwise
mark dead. -/
def handleFailure (j : Job) (errMsg : String) (base : ℚ) (now : Int) : Job :=
  if j.CanRetry then
    j.MarkAsFailed errMsg (some (NextRetryTime j.Attempts base now)) now
  else
    j.MarkAsDead errMsg now

/-- One claimed-and-failed execution of a job: `executeJob` marks the
job processing, the command fails, `handleFailure` settles it. -/
def failCycle (j : Job) (errMsg : String) (base : ℚ) (wid : String)
    (now : Int) : Job :=
  handleFailure (j.MarkAsProcessing wid now) errMsg base now

/-- `n` consecutive failing executions. -/
def failCycles (errMsg : String) (base : ℚ) (wid : String) (now : Int) :
    Nat → Job → Job
  | 0, j => j
  | n + 1, j => failCycles errMsg base wid now n (failCycle j errMsg base wid now)

end Worker

/-! ## Enqueue path (pkg/cli/enqueue command) -/

/-- The enqueue command body (pkg/cli, `enqueueCmd`): parse via
`FromJSON`, validate, substitute the configured default when
`MaxRetries` is still zero, save.  Returns the stored table and the
job as enqueued. -/
def enqueueJob (cfg : Config) (p : Job) (freshId : String) (now : Int)
    (s : List Row) : Except String (List Row × Job) :=
  let j := p.FromJSON freshId now
  match j.Validate with
  | .error e => .error e
  | .ok _ =>
    let j := if j.MaxRetries = 0 then { j with MaxRetries := cfg.MaxRetries } else j
    .ok (Storage.SaveJob s j, j)

/-- A job's field values after surviving a store round trip: every
field unchanged, except that timestamps are canonicalized to the
RFC3339 (whole-second) text they were stored as. -/
def canonJob (j : Job) : Job :=
  { j with
    CreatedAt := canonTime j.CreatedAt
    UpdatedAt := canonTime j.UpdatedAt
    NextRetryAt := j.NextRetryAt.map canonTime }

/-! ## Concurrent claims

SQLite serializes the write transactions of concurrent
`GetNextPendingJob` calls, and a call's SELECT does not write; so any
interleaving of any number of concurrent calls is modelled by the
sequence of their conditional UPDATEs, each carrying whatever candidate
id the call's SELECT produced from the snapshot it read (here
arbitrary, which covers arbitrarily stale snapshots). -/

/-- One concurrent claim attempt, abstracted to its write phase: the
candidate id its SELECT chose, the caller's worker id, and the time of
its UPDATE. -/
structure ClaimOp where
  jobId : String
  workerId : String
  now : Int
deriving Repr, DecidableEq

/-- The write phase of one `GetNextPendingJob` call: run the
conditional UPDATE; zero rows affected is a lost race, rolled back
with no job returned. -/
def claimStep (s : List Row) (op : ClaimOp) : List Row × Bool :=
  let u := Storage.claimUpdate s op.jobId op.workerId op.now
  if u.2 = 0 then (s, false) else (u.1, true)

/-- Run a sequence of concurrent claim attempts; returns the final
table and each call's success flag, in order. -/
def runClaims (s : List Row) : List ClaimOp → List Row × List Bool
  | [] => (s, [])
  | op :: ops =>
    let x := claimStep s op
    let y := runClaims x.1 ops
    (y.1, x.2 :: y.2)

/-- The job ids returned by the successful calls, in order. -/
def successIds (s : List Row) (ops : List ClaimOp) : List String :=
  ((ops.zip (runClaims s ops).2).filter (fun p => p.2)).map (fun p => p.1.jobId)

/-- A sample stored pending row, used to instantiate theorems with
hypotheses at a concrete table. -/
def rowPendingA : Row :=
  { id := "a", command := "c", state := "pending", attempts := 0,
    max_retries := 3, created_at := 1, updated_at := 1,
    next_retry_at := none, worker_id := some "", error := some "",
    output := some "" }

/-! ## Helper lemmas about repeated failing executions -/

/-- Unfolding the last cycle of `failCycles`. -/
theorem failCycles_succ_last (e : String) (b : ℚ) (w : String) (n : Int) :
    ∀ (k : Nat) (j : Job),
      Worker.failCycles e b w n (k + 1) j =
        Worker.failCycle (Worker.failCycles e b w n k j) e b w n
  | 0, j => rfl
  | k + 1, j => by
    rw [show k + 1 + 1 = k + 2 from rfl]
    rw [Worker.failCycles, Worker.failCycles]
    exact failCycles_succ_last e b w n k (Worker.failCycle j e b w n)

/-- While retries remain, each failing cycle increments `Attempts`,
keeps `MaxRetries`, and leaves the job in `failed`. -/
theorem failCycles_retry (e : String) (b : ℚ) (w : String) (n : Int) :
    ∀ (k : Nat) (j : Job), (k : Int) ≤ j.MaxRetries - j.Attempts →
      (Worker.failCycles e b w n k j).Attempts = j.Attempts + k ∧
      (Worker.failCycles e b w n k j).MaxRetries = j.MaxRetries ∧
      (Worker.failCycles e b w n k j).State = (if k = 0 then j.State else StateFailed)
  | 0, j, _ => by simp [Worker.failCycles]
  | k + 1, j, h => by
    have hcr : j.CanRetry = true := by
      simp only [Job.CanRetry, decide_eq_true_eq]
      push_cast at h
      omega
    have hstep : Worker.failCycle j e b w n =
        { j with
          State := StateFailed
          Error := e
          Attempts := j.Attempts + 1
          NextRetryAt := some (NextRetryTime j.Attempts b n)
          UpdatedAt := n
          WorkerID := "" } := by
      simp [Worker.failCycle, Worker.handleFailure, Job.MarkAsProcessing,
        Job.CanRetry, Job.MarkAsFailed] at hcr ⊢
      simp [hcr]
    have hrec := failCycles_retry e b w n k (Worker.failCycle j e b w n)
      (by rw [hstep]; push_cast at h ⊢; omega)
    rw [Worker.failCycles] at *
    rw [hstep] at hrec ⊢
    refine ⟨?_, ?_, ?_⟩
    · rw [hrec.1]; push_cast; ring
    · exact hrec.2.1
    · rcases Nat.eq_zero_or_pos k with hk | hk
      · subst hk; simpa using hrec.2.2
      · have : k ≠ 0 := by omega
        simp [this] at hrec ⊢
        exact hrec.2.2

/-- Claim C3 counterexample: a job enqueued with `max_retries = 2` that
fails on every execution ends `dead` with `attempts = 2`, not `3` as
the claim states, because `MarkAsDead` does not increment `Attempts`. -/
theorem C3_counterexample :
    (Worker.failCycles "err" 2 "w" 0 3 (Job.NewJob "j1" "cmd" 2 0)).State = StateDead ∧
    (Worker.failCycles "err" 2 "w" 0 3 (Job.NewJob "j1" "cmd" 2 0)).Attempts = 2 ∧
    (Worker.failCycles "err" 2 "w" 0 3 (Job.NewJob "j1" "cmd" 2 0)).Attempts ≠ 3 := by
  refine ⟨?_, ?_, ?_⟩ <;> decide

/-- Claim C3 (amended): `MarkAsDead` leaves `Attempts` unchanged, so a
job enqueued with `max_retries = R` that fails on every execution is
executed `R + 1` times and ends in `dead` with `attempts = R` (for
example `attempts = 2` when `max_retries = 2`); settlement routes the
final failure to `MarkAsDead` exactly because `CanRetry`
(`attempts < max_retries`, evaluated before any increment) is false
there. -/
theorem C3_amended (R : Nat) (id cmd e w : String) (b : ℚ) (n now0 : Int) :
    (Worker.failCycles e b w n (R + 1) (Job.NewJob id cmd R now0)).State = StateDead ∧
    (Worker.failCycles e b w n (R + 1) (Job.NewJob id cmd R now0)).Attempts = R := by
  have hmid := failCycles_retry e b w n R (Job.NewJob id cmd R now0)
    (by simp [Job.NewJob])
  rw [failCycles_succ_last]
  set jR := Worker.failCycles e b w n R (Job.NewJob id cmd R now0) with hjR
  have hA : jR.Attempts = (R : Int) := by
    rw [hmid.1]; simp [Job.NewJob]
  have hM : jR.MaxRetries = (R : Int) := by
    rw [hmid.2.1]; simp [Job.NewJob]
  simp [Worker.failCycle, Worker.handleFailure, Job.MarkAsProcessing,
    Job.CanRetry, Job.MarkAsDead, hA, hM]

/-- Claim C4 counterexample: claiming a `failed` job whose
`next_retry_at` is set leaves the committed row in `processing` with
`next_retry_at` still non-empty — the claimed invariant
`state = processing ⇒ next_retry_at = ∅` does not hold. -/
theorem C4_counterexample :
    ∃ r ∈ (Storage.GetNextPendingJob
        [{ id := "j1", command := "c", state := "failed", attempts := 1,
           max_retries := 3, created_at := 0, updated_at := 0,
           next_retry_at := some 5, worker_id := some "", error := some "x",
           output := some "" }] "w1" 10000000000).2,
      r.state = StateProcessing ∧ r.next_retry_at ≠ none := by decide

/-- Claim C4 (amended): a claim — whether through `MarkAsProcessing` or
through the store's conditional claim UPDATE — stamps
`state = processing` and the caller's worker id, but preserves
`next_retry_at` rather than clearing it; so after claiming a failed
job the `processing` row keeps its previously set `next_retry_at`, and
`worker_id` is exactly the caller's id (non-empty whenever the caller's
id is). -/
theorem C4_amended (j : Job) (r : Row) (wid : String) (now : Int) :
    ((j.MarkAsProcessing wid now).State = StateProcessing ∧
     (j.MarkAsProcessing wid now).WorkerID = wid ∧
     (j.MarkAsProcessing wid now).NextRetryAt = j.NextRetryAt) ∧
    ((Storage.claimRow r wid now).state = StateProcessing ∧
     (Storage.claimRow r wid now).worker_id = some wid ∧
     (Storage.claimRow r wid now).next_retry_at = r.next_retry_at) :=
  ⟨⟨rfl, rfl, rfl⟩, ⟨rfl, rfl, rfl⟩⟩

/-- Claim C5 counterexample: settling a failure of a `processing` job
with `attempts = 1, max_retries = 2` applies `MarkAsFailed` (since
`CanRetry` holds) and leaves a `failed` job with `attempts = 2`, for
which `attempts < max_retries` is false — the claimed invariant
`state = failed ⇒ attempts < max_retries` does not hold. -/
theorem C5_counterexample :
    (Worker.handleFailure
        { ID := "j1", Command := "c", State := "processing", Attempts := 1,
          MaxRetries := 2, CreatedAt := 0, UpdatedAt := 0, NextRetryAt := none,
          WorkerID := "w", Error := "", Output := "" } "boom" 2 0).State = StateFailed ∧
    (Worker.handleFailure
        { ID := "j1", Command := "c", State := "processing", Attempts := 1,
          MaxRetries := 2, CreatedAt := 0, UpdatedAt := 0, NextRetryAt := none,
          WorkerID := "w", Error := "", Output := "" } "boom" 2 0).Attempts = 2 ∧
    ¬((2 : Int) < 2) := by
  refine ⟨?_, ?_, by decide⟩ <;> decide

/-- Claim C5 (amended): whenever settlement applies `MarkAsFailed`
(exactly when `CanRetry` holds before the increment), the resulting job
is `failed` with a non-empty `next_retry_at` and satisfies the weaker
bound `attempts ≤ max_retries`; equality is reached on the last
retryable failure, so `state = failed ⇒ attempts < max_retries` does
not hold, only `attempts ≤ max_retries` does. -/
theorem C5_amended (j : Job) (e : String) (b : ℚ) (now : Int)
    (_hs : j.State = StateProcessing) (hr : j.CanRetry = true) :
    (Worker.handleFailure j e b now).State = StateFailed ∧
    (Worker.handleFailure j e b now).NextRetryAt ≠ none ∧
    (Worker.handleFailure j e b now).Attempts ≤ (Worker.handleFailure j e b now).MaxRetries := by
  simp only [Job.CanRetry, decide_eq_true_eq] at hr
  have hb : j.CanRetry = true := by simp [Job.CanRetry, hr]
  simp [Worker.handleFailure, hb, Job.MarkAsFailed]
  omega

/-- Witness for C5_amended at a concrete processing job. -/
theorem C5_amended_witness :
    (Worker.handleFailure
        { ID := "j2", Command := "c", State := "processing", Attempts := 0,
          MaxRetries := 2, CreatedAt := 0, UpdatedAt := 0, NextRetryAt := none,
          WorkerID := "w", Error := "", Output := "" } "boom" 2 7).State = StateFailed ∧
    (Worker.handleFailure
        { ID := "j2", Command := "c", State := "processing", Attempts := 0,
          MaxRetries := 2, CreatedAt := 0, UpdatedAt := 0, NextRetryAt := none,
          WorkerID := "w", Error := "", Output := "" } "boom" 2 7).NextRetryAt ≠ none ∧
    (Worker.handleFailure
        { ID := "j2", Command := "c", State := "processing", Attempts := 0,
          MaxRetries := 2, CreatedAt := 0, UpdatedAt := 0, NextRetryAt := none,
          WorkerID := "w", Error := "", Output := "" } "boom" 2 7).Attempts ≤
      (Worker.handleFailure
        { ID := "j2", Command := "c", State := "processing", Attempts := 0,
          MaxRetries := 2, CreatedAt := 0, UpdatedAt := 0, NextRetryAt := none,
          WorkerID := "w", Error := "", Output := "" } "boom" 2 7).MaxRetries :=
  C5_amended _ "boom" 2 7 (by decide) (by decide)

/-- Claim C6 counterexample: with `base = 3/2` and `attempts = 1` the
source's backoff is 1 whole second (the float delay is truncated when
converted to a `time.Duration`), not the `min(base^attempts, 3600) =
1.5` seconds the claim states. -/
theorem C6_counterexample :
    (CalculateBackoff 1 (3 / 2) : ℚ) ≠ backoffSpec 1 (3 / 2) * 1000000000 := by
  have h1 : backoffDelayQ 1 (3 / 2) = 3 / 2 := by
    unfold backoffDelayQ
    norm_num
  have h2 : (⌊(3 / 2 : ℚ)⌋ : Int) = 1 := by
    rw [Int.floor_eq_iff]
    norm_num
  have h3 : backoffSpec 1 (3 / 2) = 3 / 2 := by
    unfold backoffSpec
    norm_num
  rw [CalculateBackoff, h1, h2, h3]
  norm_num

/-- Claim C6 (amended): `CalculateBackoff` equals
`min(base^attempts, 3600)` seconds truncated to a whole number of
seconds (the `time.Duration` conversion drops the fractional part),
after clamping `attempts` to ≥ 0 and substituting the fallback base
2.0 when `base` is below 1.0; `NextRetryTime` is `now` plus that
delay. -/
theorem C6_amended (a : Int) (b : ℚ) (now : Int) :
    CalculateBackoff a b = ⌊backoffSpec a b⌋ * 1000000000 ∧
    NextRetryTime a b now = now + CalculateBackoff a b := by
  refine ⟨?_, rfl⟩
  have hq : backoffDelayQ a b = backoffSpec a b := by
    simp only [backoffDelayQ, backoffSpec]
    have ha : (if a < 0 then (0 : Int) else a) = max a 0 := by
      split_ifs with h <;> omega
    rw [ha, min_def]
    split_ifs <;> first | rfl | linarith
  rw [CalculateBackoff, hq]

/-- Claim C7 counterexample: completing a previously failed,
re-claimed job (`worker_id = "w1"`, `error = "boom"`) leaves both
fields untouched: `MarkAsCompleted` clears neither `worker_id` nor
`error`, so the claimed clearing and the invariant
`state = completed ⇒ error = ∅` fail. -/
theorem C7_counterexample :
    (Job.MarkAsCompleted
        { ID := "j1", Command := "c", State := "processing", Attempts := 1,
          MaxRetries := 3, CreatedAt := 0, UpdatedAt := 0, NextRetryAt := none,
          WorkerID := "w1", Error := "boom", Output := "" } "out" 5).State = StateCompleted ∧
    (Job.MarkAsCompleted
        { ID := "j1", Command := "c", State := "processing", Attempts := 1,
          MaxRetries := 3, CreatedAt := 0, UpdatedAt := 0, NextRetryAt := none,
          WorkerID := "w1", Error := "boom", Output := "" } "out" 5).WorkerID ≠ "" ∧
    (Job.MarkAsCompleted
        { ID := "j1", Command := "c", State := "processing", Attempts := 1,
          MaxRetries := 3, CreatedAt := 0, UpdatedAt := 0, NextRetryAt := none,
          WorkerID := "w1", Error := "boom", Output := "" } "out" 5).Error ≠ "" := by
  refine ⟨?_, ?_, ?_⟩ <;> decide

/-- Claim C7 (amended): `MarkAsCompleted out` on a processing job sets
`state = completed`, `output = out` and a fresh `updated_at`, but
leaves `worker_id` and `error` unchanged; consequently the invariant
`state = completed ⇒ error = ∅` does not hold for a job that carries a
non-empty error from an earlier failure. -/
theorem C7_amended (j : Job) (out : String) (now : Int) :
    (j.MarkAsCompleted out now).State = StateCompleted ∧
    (j.MarkAsCompleted out now).Output = out ∧
    (j.MarkAsCompleted out now).UpdatedAt = now ∧
    (j.MarkAsCompleted out now).WorkerID = j.WorkerID ∧
    (j.MarkAsCompleted out now).Error = j.Error :=
  ⟨rfl, rfl, rfl, rfl, rfl⟩

/-- Claim C8: with the configured default `max_retries = 5` and an
enqueue payload `{"command":"echo hi"}` (no `id`, no `max_retries`),
the stored job gets `max_retries = 3`, not the configured 5:
`FromJSON` substitutes the hard-coded 3 before the enqueue command's
config-default branch can see a zero, leaving that branch dead.  The
missing `id` is replaced by the freshly generated identifier as
claimed. -/
theorem C8_enqueue_default :
    (enqueueJob
        { MaxRetries := 5, BackoffBase := 2, DBPath := "db", WorkerCount := 1 }
        { ID := "", Command := "echo hi", State := "", Attempts := 0,
          MaxRetries := 0, CreatedAt := 0, UpdatedAt := 0, NextRetryAt := none,
          WorkerID := "", Error := "", Output := "" }
        "fresh-id" 1000000000 []).toOption.map
      (fun x => (x.2.MaxRetries, x.2.ID)) = some (3, "fresh-id") := by decide

/-! ## Helper lemmas about the row table -/

/-- `findRow` commutes with mapping an id-preserving function over the
table. -/
theorem findRow_map (f : Row → Row) (hf : ∀ r, (f r).id = r.id)
    (s : List Row) (i : String) : findRow (s.map f) i = (findRow s i).map f := by
  induction s with
  | nil => rfl
  | cons r s ih =>
    unfold findRow at ih ⊢
    rw [List.map_cons]
    by_cases h : r.id = i
    · rw [List.find?_cons_of_pos _ (by simp [hf, h]),
        List.find?_cons_of_pos _ (by simp [h])]
      rfl
    · rw [List.find?_cons_of_neg _ (by simp [hf, h]),
        List.find?_cons_of_neg _ (by simp [h])]
      exact ih

/-- Mapping an id-preserving function over the table keeps the list of
primary keys. -/
theorem map_ids_of_id_preserved (f : Row → Row) (hf : ∀ r, (f r).id = r.id)
    (s : List Row) : (s.map f).map Row.id = s.map Row.id := by
  rw [List.map_map]
  exact List.map_congr_left (fun r _ => hf r)

/-- Claim C9: saving a valid job under a fresh id and re-reading it by
id yields a job with identical field values (id, command, state,
attempts, max_retries, worker_id, error, output, presence of
next_retry_at), with timestamps canonicalized to the whole-second
RFC3339 text they were stored as. -/
theorem C9_round_trip (s : List Row) (j : Job)
    (hfresh : ∀ r ∈ s, r.id ≠ j.ID) (_hvalid : j.Validate = .ok ()) :
    Storage.GetJob (Storage.SaveJob s j) j.ID = some (canonJob j) := by
  have hany : s.any (fun r => r.id = j.ID) = false := by
    rw [List.any_eq_false]
    intro r hr
    simp [hfresh r hr]
  have h1 : s.find? (fun r => r.id = j.ID) = none := by
    rw [List.find?_eq_none]
    intro r hr
    simp [hfresh r hr]
  simp only [Storage.SaveJob, hany, Bool.false_eq_true, if_false,
    Storage.GetJob, findRow, List.find?_append, h1, Option.none_or]
  have h2 : List.find? (fun r => r.id = j.ID) [Storage.encodeRow j] =
      some (Storage.encodeRow j) := by
    simp [Storage.encodeRow]
  rw [h2]
  have hmap : ∀ o : Option Int, (o.map toSec).map ofSec = o.map canonTime := by
    intro o
    cases o <;> rfl
  rw [Option.map_some']
  simp only [Storage.scanJob, Storage.encodeRow, Option.getD_some, hmap]
  rfl

/-- Witness for C9_round_trip: a concrete job with every optional field
populated, saved into the empty table. -/
theorem C9_round_trip_witness :
    Storage.GetJob
      (Storage.SaveJob []
        { ID := "a", Command := "echo hi", State := "failed", Attempts := 1,
          MaxRetries := 3, CreatedAt := 1500000000, UpdatedAt := 2500000000,
          NextRetryAt := some 3500000000, WorkerID := "", Error := "boom",
          Output := "out" })
      (Job.ID
        { ID := "a", Command := "echo hi", State := "failed", Attempts := 1,
          MaxRetries := 3, CreatedAt := 1500000000, UpdatedAt := 2500000000,
          NextRetryAt := some 3500000000, WorkerID := "", Error := "boom",
          Output := "out" }) =
      some (canonJob
        { ID := "a", Command := "echo hi", State := "failed", Attempts := 1,
          MaxRetries := 3, CreatedAt := 1500000000, UpdatedAt := 2500000000,
          NextRetryAt := some 3500000000, WorkerID := "", Error := "boom",
          Output := "out" }) :=
  C9_round_trip _ _ (by simp) (by rfl)

/-- Claim C10: `SaveJob` on an id already present keeps the stored
row's `created_at` and overwrites every other column with the passed
job's values (as bound by the INSERT), even when the passed job
carries a different `created_at`. -/
theorem C10_upsert_frame (s : List Row) (j : Job) (r0 : Row)
    (h : findRow s j.ID = some r0) :
    findRow (Storage.SaveJob s j) j.ID =
      some { Storage.encodeRow j with created_at := r0.created_at } := by
  have hmem : r0 ∈ s := List.mem_of_find?_eq_some h
  have hid : r0.id = j.ID := by simpa using List.find?_some h
  have hany : s.any (fun r => r.id = j.ID) = true :=
    List.any_eq_true.mpr ⟨r0, hmem, by simp [hid]⟩
  have hf : ∀ r : Row,
      ((if r.id = j.ID then { Storage.encodeRow j with created_at := r.created_at }
        else r) : Row).id = r.id := by
    intro r
    by_cases hc : r.id = j.ID
    · simp [hc, Storage.encodeRow]
    · simp [hc]
  simp only [Storage.SaveJob, hany, if_true]
  rw [findRow_map _ hf, h]
  simp [hid]

/-- Witness for C10_upsert_frame: overwrite a stored pending row with a
settled job carrying a different `created_at`; the stored `created_at`
survives. -/
theorem C10_upsert_frame_witness :
    findRow
      (Storage.SaveJob
        [{ id := "a", command := "c", state := "pending", attempts := 0,
           max_retries := 3, created_at := 7, updated_at := 7,
           next_retry_at := none, worker_id := some "", error := some "",
           output := some "" }]
        { ID := "a", Command := "c2", State := "completed", Attempts := 1,
          MaxRetries := 5, CreatedAt := 99000000000, UpdatedAt := 12000000000,
          NextRetryAt := none, WorkerID := "w", Error := "", Output := "hi" })
      (Job.ID
        { ID := "a", Command := "c2", State := "completed", Attempts := 1,
          MaxRetries := 5, CreatedAt := 99000000000, UpdatedAt := 12000000000,
          NextRetryAt := none, WorkerID := "w", Error := "", Output := "hi" }) =
      some { Storage.encodeRow
        { ID := "a", Command := "c2", State := "completed", Attempts := 1,
          MaxRetries := 5, CreatedAt := 99000000000, UpdatedAt := 12000000000,
          NextRetryAt := none, WorkerID := "w", Error := "", Output := "hi" }
        with created_at :=
          (Row.created_at
            { id := "a", command := "c", state := "pending", attempts := 0,
              max_retries := 3, created_at := 7, updated_at := 7,
              next_retry_at := none, worker_id := some "", error := some "",
              output := some "" }) } :=
  C10_upsert_frame _ _ _ (by rfl)

/-- Claim C1: whenever a runnable job exists (`pending`, or `failed`
with `next_retry_at ≤ now`), `GetNextPendingJob` picks a runnable row
minimal by `created_at` (the oldest; ties broken arbitrarily by the
store), rewrites exactly that row to `processing` with the caller's
worker id and a fresh `updated_at` under the guard
`state IN (pending, failed)`, and returns the claimed job; it returns
no job exactly when no runnable candidate exists or the conditional
update affects zero rows, and neither case is an error. -/
theorem C1_claim_next (s : List Row) (wid : String) (now : Int)
    (hnd : (s.map Row.id).Nodup) :
    (((Storage.GetNextPendingJob s wid now).1 = none) ↔
      ∀ r ∈ s, Storage.runnable now r = false) ∧
    (∀ j s', Storage.GetNextPendingJob s wid now = (some j, s') →
      ∃ c ∈ s, Storage.runnable now c = true ∧
        (∀ r ∈ s, Storage.runnable now r = true → c.created_at ≤ r.created_at) ∧
        j = { Storage.scanJob c with State := StateProcessing, WorkerID := wid } ∧
        s' = s.map (fun r =>
          if r.id = c.id then Storage.claimRow c wid now else r)) := by
  rcases hsel : Storage.selectCandidate s now with _ | c
  · have hemp : s.filter (Storage.runnable now) = [] := by
      simp only [Storage.selectCandidate, List.argmin_eq_none] at hsel
      exact hsel
    have hall : ∀ r ∈ s, Storage.runnable now r = false := by
      intro r hr
      have := List.filter_eq_nil_iff.mp hemp r hr
      simpa using this
    constructor
    · simp only [Storage.GetNextPendingJob, hsel]
      exact ⟨fun _ => hall, fun _ => trivial⟩
    · intro j s' hjs
      simp only [Storage.GetNextPendingJob, hsel] at hjs
      simp at hjs
  · have hargmin : c ∈ (s.filter (Storage.runnable now)).argmin Row.created_at := by
      rw [Option.mem_def]
      simpa only [Storage.selectCandidate] using hsel
    have hmemf : c ∈ s.filter (Storage.runnable now) := List.argmin_mem hargmin
    have hcs : c ∈ s := (List.mem_filter.mp hmemf).1
    have hrun : Storage.runnable now c = true := (List.mem_filter.mp hmemf).2
    have hguard : Storage.claimGuard c = true := by
      simp only [Storage.runnable, Bool.or_eq_true, Bool.and_eq_true,
        decide_eq_true_eq] at hrun
      simp only [Storage.claimGuard, Bool.or_eq_true, decide_eq_true_eq]
      rcases hrun with h | h
      · exact Or.inl h
      · exact Or.inr h.1
    have hcnt : (s.filter (fun r => r.id = c.id && Storage.claimGuard r)).length ≠ 0 := by
      have hmemg : c ∈ s.filter (fun r => r.id = c.id && Storage.claimGuard r) :=
        List.mem_filter.mpr ⟨hcs, by simp [hguard]⟩
      intro h0
      rw [List.length_eq_zero] at h0
      rw [h0] at hmemg
      cases hmemg
    have hGNP : Storage.GetNextPendingJob s wid now =
        (some { Storage.scanJob c with State := StateProcessing, WorkerID := wid },
         s.map (fun r =>
           if r.id = c.id && Storage.claimGuard r then Storage.claimRow r wid now
           else r)) := by
      simp only [Storage.GetNextPendingJob, hsel, Storage.claimUpdate]
      rw [if_neg hcnt]
    have hmapeq : s.map (fun r =>
          if r.id = c.id && Storage.claimGuard r then Storage.claimRow r wid now
          else r) =
        s.map (fun r => if r.id = c.id then Storage.claimRow c wid now else r) := by
      apply List.map_congr_left
      intro r hr
      by_cases hidc : r.id = c.id
      · have hrc : r = c := List.inj_on_of_nodup_map hnd hr hcs hidc
        subst hrc
        simp [hguard]
      · simp [hidc]
    constructor
    · rw [hGNP]
      constructor
      · intro h
        cases h
      · intro hall
        have h1 := hall c hcs
        rw [hrun] at h1
        exact absurd h1 (by decide)
    · intro j s' hjs
      rw [hGNP] at hjs
      have hj : some { Storage.scanJob c with
          State := StateProcessing, WorkerID := wid } = some j := congrArg Prod.fst hjs
      have hs' : s.map (fun r =>
          if r.id = c.id && Storage.claimGuard r then Storage.claimRow r wid now
          else r) = s' := congrArg Prod.snd hjs
      refine ⟨c, hcs, hrun, ?_, ?_, ?_⟩
      · intro r hr hrrun
        exact List.le_of_mem_argmin (List.mem_filter.mpr ⟨hr, hrrun⟩) hargmin
      · exact (Option.some.injEq _ _ ▸ hj).symm
      · rw [← hs', hmapeq]


/-- Witness for C1_claim_next on a one-row table holding a pending
job. -/
theorem C1_claim_next_witness :
    (((Storage.GetNextPendingJob [rowPendingA] "w1" 9000000000).1 = none) ↔
      ∀ r ∈ [rowPendingA], Storage.runnable 9000000000 r = false) ∧
    (∀ j s', Storage.GetNextPendingJob [rowPendingA] "w1" 9000000000 = (some j, s') →
      ∃ c ∈ [rowPendingA], Storage.runnable 9000000000 c = true ∧
        (∀ r ∈ [rowPendingA], Storage.runnable 9000000000 r = true →
          c.created_at ≤ r.created_at) ∧
        j = { Storage.scanJob c with State := StateProcessing, WorkerID := "w1" } ∧
        s' = List.map (fun r =>
          if r.id = c.id then Storage.claimRow c "w1" 9000000000 else r)
          [rowPendingA]) :=
  C1_claim_next [rowPendingA] "w1" 9000000000 (by decide)

/-! ## Helper lemmas about concurrent claims -/

/-- The conditional-UPDATE map preserves every row's id. -/
theorem claimUpdate_fun_id (i w : String) (n : Int) (r : Row) :
    ((if r.id = i && Storage.claimGuard r then Storage.claimRow r w n
      else r) : Row).id = r.id := by
  by_cases h : (decide (r.id = i) && Storage.claimGuard r) = true
  · simp [h, Storage.claimRow]
  · simp [h]

/-- `claimStep` keeps the table's list of primary keys. -/
theorem claimStep_ids (s : List Row) (op : ClaimOp) :
    ((claimStep s op).1).map Row.id = s.map Row.id := by
  simp only [claimStep]
  by_cases h : (Storage.claimUpdate s op.jobId op.workerId op.now).2 = 0
  · simp [h]
  · simp only [h, if_neg, ite_false]
    simp only [Storage.claimUpdate]
    exact map_ids_of_id_preserved _ (claimUpdate_fun_id op.jobId op.workerId op.now) s

/-- A row already in `processing` is untouched by a claim attempt: the
conditional UPDATE's guard `state IN (pending, failed)` fails on it. -/
theorem claimStep_stable (s : List Row) (op : ClaimOp) (i : String) (r : Row)
    (hfind : findRow s i = some r) (hproc : r.state = StateProcessing) :
    findRow (claimStep s op).1 i = some r := by
  simp only [claimStep]
  by_cases h : (Storage.claimUpdate s op.jobId op.workerId op.now).2 = 0
  · simpa [h] using hfind
  · simp only [h, ite_false]
    have hguard : Storage.claimGuard r = false := by
      simp only [Storage.claimGuard, hproc]
      decide
    simp only [Storage.claimUpdate]
    rw [findRow_map _ (claimUpdate_fun_id op.jobId op.workerId op.now), hfind]
    simp [hguard]

/-- A successful claim attempt found a guard-passing row under its
candidate id and rewrote exactly it to `processing` with the caller's
worker id. -/
theorem claimStep_success (s : List Row) (op : ClaimOp)
    (hnd : (s.map Row.id).Nodup) (hok : (claimStep s op).2 = true) :
    ∃ r, findRow s op.jobId = some r ∧ Storage.claimGuard r = true ∧
      findRow (claimStep s op).1 op.jobId =
        some (Storage.claimRow r op.workerId op.now) := by
  simp only [claimStep] at hok ⊢
  by_cases h : (Storage.claimUpdate s op.jobId op.workerId op.now).2 = 0
  · simp [h] at hok
  · have hx : ∃ x ∈ s, (decide (x.id = op.jobId) && Storage.claimGuard x) = true := by
      by_contra hc
      push_neg at hc
      apply h
      simp only [Storage.claimUpdate]
      rw [List.length_eq_zero, List.filter_eq_nil_iff]
      intro a ha
      simp only [Bool.not_eq_true]
      exact Bool.not_eq_true _ ▸ (by simpa using hc a ha)
    obtain ⟨x, hxs, hxp⟩ := hx
    have hxid : x.id = op.jobId := by
      have h2 := hxp
      simp only [Bool.and_eq_true, decide_eq_true_eq] at h2
      exact h2.1
    have hfindex : ∃ r, findRow s op.jobId = some r := by
      cases hfr : findRow s op.jobId with
      | none =>
        have := List.find?_eq_none.mp hfr x hxs
        simp [hxid] at this
      | some r => exact ⟨r, rfl⟩
    obtain ⟨r, hr⟩ := hfindex
    have hrs : r ∈ s := List.mem_of_find?_eq_some hr
    have hrid : r.id = op.jobId := by simpa using List.find?_some hr
    have hxr : x = r :=
      List.inj_on_of_nodup_map hnd hxs hrs (by rw [hxid, hrid])
    have hguard : Storage.claimGuard r = true := by
      rw [← hxr]
      have h2 := hxp
      simp only [Bool.and_eq_true, decide_eq_true_eq] at h2
      exact h2.2
    refine ⟨r, hr, hguard, ?_⟩
    simp only [h, ite_false]
    simp only [Storage.claimUpdate]
    rw [findRow_map _ (claimUpdate_fun_id op.jobId op.workerId op.now), hr]
    simp [hrid, hguard]

/-- `claimStep` preserves distinctness of primary keys. -/
theorem claimStep_nodup (s : List Row) (op : ClaimOp)
    (hnd : (s.map Row.id).Nodup) : (((claimStep s op).1).map Row.id).Nodup := by
  rw [claimStep_ids]
  exact hnd

/-- Unfolding `runClaims` on a cons. -/
theorem runClaims_cons (s : List Row) (op : ClaimOp) (ops : List ClaimOp) :
    runClaims s (op :: ops) =
      ((runClaims (claimStep s op).1 ops).1,
       (claimStep s op).2 :: (runClaims (claimStep s op).1 ops).2) := rfl

/-- Unfolding `successIds` on a cons. -/
theorem successIds_cons (s : List Row) (op : ClaimOp) (ops : List ClaimOp) :
    successIds s (op :: ops) =
      (if (claimStep s op).2 = true then [op.jobId] else []) ++
        successIds (claimStep s op).1 ops := by
  simp only [successIds, runClaims_cons, List.zip_cons_cons, List.filter_cons]
  by_cases hok : (claimStep s op).2 = true
  · simp [hok]
  · simp [hok]

/-- A row in `processing` stays there, with its worker stamp, through
any further sequence of claim attempts. -/
theorem runClaims_stable (i : String) (r : Row)
    (hproc : r.state = StateProcessing) :
    ∀ (ops : List ClaimOp) (s : List Row), findRow s i = some r →
      findRow (runClaims s ops).1 i = some r
  | [], _, h => h
  | op :: ops, s, h => by
    rw [runClaims_cons]
    exact runClaims_stable i r hproc ops (claimStep s op).1
      (claimStep_stable s op i r h hproc)

/-- No claim attempt can ever succeed again on an id whose row is
already in `processing`. -/
theorem runClaims_no_success_on_processing (i : String) (r : Row)
    (hproc : r.state = StateProcessing) :
    ∀ (ops : List ClaimOp) (s : List Row), (s.map Row.id).Nodup →
      findRow s i = some r → i ∈ successIds s ops → False
  | [], _, _, _, hmem => by simp [successIds, runClaims] at hmem
  | op :: ops, s, hnd, h, hmem => by
    rw [successIds_cons] at hmem
    rcases List.mem_append.mp hmem with hm | hm
    · by_cases hok : (claimStep s op).2 = true
      · simp only [hok, if_true, List.mem_singleton] at hm
        subst hm
        obtain ⟨r', hr', hguard, _⟩ := claimStep_success s op hnd hok
        rw [h] at hr'
        cases hr'
        simp only [Storage.claimGuard, hproc] at hguard
        exact absurd hguard (by decide)
      · simp [hok] at hm
    · exact runClaims_no_success_on_processing i r hproc ops (claimStep s op).1
        (claimStep_nodup s op hnd) (claimStep_stable s op i r h hproc) hm

/-- Claim C2: for any number of concurrent `GetNextPendingJob` calls on
the shared store (modelled as any sequence of their serialized
conditional UPDATEs, with arbitrary SELECT snapshots), every
successful call claims a distinct job id — in particular, for any two
of them, at most one returns any given job id — and each claimed job's
row is in `processing` with the successful caller's worker id stamped
from the moment its call returns, through the end of the run. -/
theorem C2_concurrent_claims (s : List Row) (ops : List ClaimOp)
    (hnd : (s.map Row.id).Nodup) :
    (successIds s ops).Nodup ∧
    (∀ p ∈ ops.zip (runClaims s ops).2, p.2 = true →
      ∃ r, findRow (runClaims s ops).1 p.1.jobId = some r ∧
        r.state = StateProcessing ∧ r.worker_id = some p.1.workerId) := by
  induction ops generalizing s with
  | nil =>
    refine ⟨by simp [successIds, runClaims], ?_⟩
    intro p hp
    simp [runClaims] at hp
  | cons op ops ih =>
    have hnd1 := claimStep_nodup s op hnd
    have IH := ih (claimStep s op).1 hnd1
    constructor
    · rw [successIds_cons]
      by_cases hok : (claimStep s op).2 = true
      · simp only [hok, if_true, List.singleton_append, List.nodup_cons]
        refine ⟨?_, IH.1⟩
        obtain ⟨r, _, _, hfind1⟩ := claimStep_success s op hnd hok
        exact fun hmem => runClaims_no_success_on_processing op.jobId
          (Storage.claimRow r op.workerId op.now) rfl ops (claimStep s op).1
          hnd1 hfind1 hmem
      · simp only [hok, if_false, List.nil_append]
        exact IH.1
    · intro p hp hflag
      simp only [runClaims_cons, List.zip_cons_cons, List.mem_cons] at hp ⊢
      rcases hp with hp | hp
      · subst hp
        simp only at hflag
        obtain ⟨r, _, _, hfind1⟩ := claimStep_success s op hnd hflag
        refine ⟨Storage.claimRow r op.workerId op.now, ?_, rfl, rfl⟩
        exact runClaims_stable op.jobId (Storage.claimRow r op.workerId op.now)
          rfl ops (claimStep s op).1 hfind1
      · exact IH.2 p hp hflag

/-- Witness for C2_concurrent_claims: two concurrent workers racing
for the same single pending job. -/
theorem C2_concurrent_claims_witness :
    (successIds [rowPendingA]
      [{ jobId := "a", workerId := "w1", now := 9000000000 },
       { jobId := "a", workerId := "w2", now := 9000000000 }]).Nodup ∧
    (∀ p ∈ [({ jobId := "a", workerId := "w1", now := 9000000000 } : ClaimOp),
            { jobId := "a", workerId := "w2", now := 9000000000 }].zip
        (runClaims [rowPendingA]
          [{ jobId := "a", workerId := "w1", now := 9000000000 },
           { jobId := "a", workerId := "w2", now := 9000000000 }]).2,
      p.2 = true →
      ∃ r, findRow (runClaims [rowPendingA]
          [{ jobId := "a", workerId := "w1", now := 9000000000 },
           { jobId := "a", workerId := "w2", now := 9000000000 }]).1 p.1.jobId =
          some r ∧
        r.state = StateProcessing ∧ r.worker_id = some p.1.workerId) :=
  C2_concurrent_claims [rowPendingA]
    [{ jobId := "a", workerId := "w1", now := 9000000000 },
     { jobId := "a", workerId := "w2", now := 9000000000 }] (by decide)
